import Mathlib

/-!
# Verification of the gnome-to-v4l2loopback frame pipeline

A shallow embedding, in Lean 4, of the frame-pipeline logic of
`src/main.c` (sink-failure escalation, frame-skip handling, stride
resolution, the frame validity filter, stride depadding, and the
BGRx → YUYV converter), together with theorems settling the spec's
claims about it.

Conventions of the embedding:
* Machine bytes are modelled as `Nat` values (the C code only ever
  loads `uint8_t` values, so every arithmetic operand is in `[0,255]`
  and no `int` overflow can occur; C `int` arithmetic is therefore
  modelled exactly by `Int`).
* C's arithmetic right shift `>> 8` on a (possibly negative) `int` is
  floor division by 256, modelled by `Int.fdiv`.
* A source frame is a byte map `Nat → Nat` (offset to byte value).
* An output buffer written through a moving pointer is modelled as the
  list of `(offset, value)` writes in program order.
-/

namespace GnomeV4l2

/-! ## Sink writer (`on_stream_process`, write-failure escalation)

Models the tail of `on_stream_process` in `src/main.c`:

    if (written < 0) {
        write_error_count++;
        if (data->portal_session && !data->portal_session->session_active) { quit; }
        if (write_error_count >= 5) { quit; }
    } else if (written > 0) {
        write_error_count = 0;
    }

The state is the static `write_error_count`; the result's second
component records whether `pw_main_loop_quit` was requested.  The
portal session pointer is assumed non-null (it always is in screen
capture mode once streaming has started). -/

/-- One sink-write outcome: given the current consecutive-failure
counter, the `write(2)` return value and whether the portal session is
still active, return the new counter and whether shutdown was
requested. -/
def sink_write_update (errCount : Nat) (written : Int) (sessionActive : Bool) :
    Nat × Bool :=
  if written < 0 then
    let c := errCount + 1
    if ¬ sessionActive then (c, true)
    else if 5 ≤ c then (c, true)
    else (c, false)
  else if 0 < written then (0, false)
  else (errCount, false)

/-- Run a sequence of sink writes, each a pair of the `write` return
value and the session-active flag, starting from a fresh counter.
Once shutdown is requested the main loop exits, so later events are
not processed. -/
def sink_run (events : List (Int × Bool)) : Nat × Bool :=
  events.foldl
    (fun st ev => if st.2 then st else sink_write_update st.1 ev.1 ev.2)
    (0, false)

/-- C1: a failed write increments the consecutive-failure counter; with
the session active, shutdown is requested exactly when the counter
reaches 5 (no shutdown for fewer than 5 consecutive failures, shutdown
on the 5th); with the session inactive, shutdown is requested
immediately on a failure; a successful write resets the counter to 0;
and 4 consecutive failures followed by 1 success leave the counter at 0
with no shutdown. -/
theorem sink_failure_escalation :
    (∀ (c : Nat) (w : Int) (a : Bool), w < 0 →
      (sink_write_update c w a).1 = c + 1) ∧
    (∀ (c : Nat) (w : Int), w < 0 →
      (sink_write_update c w true).2 = decide (5 ≤ c + 1)) ∧
    (∀ (c : Nat) (w : Int), w < 0 →
      (sink_write_update c w false).2 = true) ∧
    (∀ (c : Nat) (w : Int) (a : Bool), 0 < w →
      sink_write_update c w a = (0, false)) ∧
    (∀ n : Nat, n < 5 →
      sink_run (List.replicate n (-1, true)) = (n, false)) ∧
    sink_run (List.replicate 5 (-1, true)) = (5, true) ∧
    sink_run (List.replicate 4 (-1, true) ++ [(1, true)]) = (0, false) := by
  refine ⟨?_, ?_, ?_, ?_, ?_, by decide, by decide⟩
  · intro c w a hw
    simp only [sink_write_update, if_pos hw]
    split
    · simp
    · split <;> simp
  · intro c w hw
    simp only [sink_write_update, if_pos hw]
    by_cases h5 : 5 ≤ c + 1 <;> simp [h5]
  · intro c w hw
    simp [sink_write_update, if_pos hw]
  · intro c w a hw
    have hneg : ¬ w < 0 := by omega
    simp [sink_write_update, hneg, hw]
  · intro n hn
    interval_cases n <;> decide

/-- Witness for `sink_failure_escalation` at concrete inputs. -/
theorem sink_failure_escalation_witness :
    (sink_write_update 0 (-1) true).1 = 0 + 1 ∧
    (sink_write_update 4 (-1) true).2 = decide (5 ≤ 4 + 1) ∧
    (sink_write_update 0 (-1) false).2 = true ∧
    sink_write_update 3 2 true = (0, false) ∧
    sink_run (List.replicate 3 (-1, true)) = (3, false) :=
  ⟨sink_failure_escalation.1 0 (-1) true (by decide),
   sink_failure_escalation.2.1 4 (-1) (by decide),
   sink_failure_escalation.2.2.1 0 (-1) (by decide),
   sink_failure_escalation.2.2.2.1 3 2 true (by decide),
   sink_failure_escalation.2.2.2.2.1 3 (by decide)⟩

/-! ## Pipeline state machine (`on_stream_param_changed` / `on_stream_process`)

Models the per-event observable state of `struct app_data` relevant to
format negotiation, frame skipping and shutdown escalation.  The model
assumes the normal screen-capture operating mode: `v4l2_fd >= 0`,
`color_bars_mode == false`, the `VIDIOC_S_FMT` ioctl and buffer
allocations succeed, the frame's buffer was acquired successfully, and
the portal session pointer is non-null. -/

/-- The pipeline state tracked by `struct app_data` (plus the static
`write_error_count` of `on_stream_process` and whether
`pw_main_loop_quit` has been requested). -/
structure PState where
  width : Nat
  height : Nat
  spa_format : Nat
  format_set : Bool
  frame_skip_count : Nat
  write_error_count : Nat
  shutdown : Bool
  deriving DecidableEq, Repr

/-- The zero-initialized `struct app_data data = {0}` of `main`. -/
def pstate_init : PState :=
  { width := 0, height := 0, spa_format := 0, format_set := false,
    frame_skip_count := 0, write_error_count := 0, shutdown := false }

/-- The SPA formats handled by the conversion `switch` in
`on_stream_process` (cases 7–16); every other format falls into the
`default:` branch. -/
def supported_spa_format (f : Nat) : Bool :=
  f == 7 || f == 8 || f == 9 || f == 10 || f == 11 ||
  f == 12 || f == 13 || f == 14 || f == 15 || f == 16

/-- `on_stream_param_changed` for `id == SPA_PARAM_Format` with a
successfully parsed format: store the new geometry and format, and —
only when the format was never set or the dimensions changed — set the
V4L2 format, mark `format_set`, and reset `frame_skip_count` to 0. -/
def on_format_changed (st : PState) (w h fmt : Nat) : PState :=
  let dimensions_changed : Bool := st.width ≠ w || st.height ≠ h
  let st' := { st with width := w, height := h, spa_format := fmt }
  if !st.format_set || dimensions_changed then
    { st' with format_set := true, frame_skip_count := 0 }
  else st'

/-- What `on_stream_process` did with a delivered frame. -/
inductive FrameAction where
  /-- dropped by the `frame_skip_count < 5` warm-up check -/
  | skipped
  /-- dropped by `validate_frame_data` -/
  | dropped
  /-- reached the conversion `switch` (written, or `default:` case) -/
  | processed
  deriving DecidableEq, Repr

/-- `on_stream_process` for one delivered frame.  `frame_valid` is the
result of `validate_frame_data` on the frame's bytes; `writeResult` is
the `write(2)` return value of the V4L2 write for a supported format
(for an unsupported format `written` keeps its initializer `-1`);
`sessionActive` is `portal_session->session_active`. -/
def on_process (st : PState) (frame_valid : Bool) (writeResult : Int)
    (sessionActive : Bool) : PState × FrameAction :=
  if st.frame_skip_count < 5 then
    ({ st with frame_skip_count := st.frame_skip_count + 1 }, .skipped)
  else if !frame_valid then (st, .dropped)
  else
    let written : Int :=
      if supported_spa_format st.spa_format then writeResult else -1
    let r := sink_write_update st.write_error_count written sessionActive
    ({ st with write_error_count := r.1, shutdown := st.shutdown || r.2 },
     .processed)

/-- An observable pipeline event: a format renegotiation, or a
delivered frame (with its validity, write result and session flag). -/
inductive Ev where
  | fmt (w h f : Nat)
  | frame (valid : Bool) (writeResult : Int) (active : Bool)

/-- Run a sequence of events through the pipeline state. -/
def run_events (st : PState) : List Ev → PState
  | [] => st
  | .fmt w h f :: rest => run_events (on_format_changed st w h f) rest
  | .frame v r a :: rest => run_events (on_process st v r a).1 rest

/-- Run a sequence of delivered frames, collecting the action taken on
each. -/
def run_frames (st : PState) :
    List (Bool × Int × Bool) → PState × List FrameAction
  | [] => (st, [])
  | (v, r, a) :: rest =>
    let step := on_process st v r a
    let tail := run_frames step.1 rest
    (tail.1, step.2 :: tail.2)

/-- C2 (code bug evaluation): after negotiating an unsupported layout
(SPA format 3) and exhausting the 5-frame warm-up skip, five
consecutive valid delivered frames — with the session active
throughout and no sink write ever attempted — drive
`write_error_count` to 5 and request pipeline shutdown, because the
`default:` case of the conversion `switch` leaves `written = -1`,
which the write-failure handler then counts as a failed write. -/
theorem unsupported_layout_triggers_shutdown :
    (run_events pstate_init
      (Ev.fmt 2 2 3 ::
        (List.replicate 5 (Ev.frame true 1 true) ++
         List.replicate 4 (Ev.frame true 1 true)))).shutdown = false ∧
    (run_events pstate_init
      (Ev.fmt 2 2 3 ::
        (List.replicate 5 (Ev.frame true 1 true) ++
         List.replicate 5 (Ev.frame true 1 true)))).shutdown = true := by
  constructor <;> rfl

/-- C3 counterexample: negotiate 2×2 BGRx (format 8), skip the 5
warm-up frames, then renegotiate with the *same* geometry 2×2: the
frame-skip counter is *not* reset (it stays 5), and the next delivered
frame is not skipped — it proceeds to conversion, contradicting the
claim that every accepted renegotiation (including one with identical
geometry) resets the counter and skips the next 5 frames. -/
theorem same_geometry_renegotiation_no_skip :
    (run_events pstate_init
      (Ev.fmt 2 2 8 ::
        (List.replicate 5 (Ev.frame true 1 true) ++
         [Ev.fmt 2 2 8]))).frame_skip_count = 5 ∧
    (on_process
      (run_events pstate_init
        (Ev.fmt 2 2 8 ::
          (List.replicate 5 (Ev.frame true 1 true) ++ [Ev.fmt 2 2 8])))
      true 1 true).2 = .processed := by
  constructor <;> rfl

/-- Helper: while the skip counter has room, every delivered frame is
skipped, regardless of its content. -/
theorem run_frames_all_skipped (frames : List (Bool × Int × Bool))
    (st : PState) (h : st.frame_skip_count + frames.length ≤ 5) :
    (run_frames st frames).2.all (· = .skipped) = true := by
  induction frames generalizing st with
  | nil => rfl
  | cons fr rest ih =>
    obtain ⟨v, r, a⟩ := fr
    have hlt : st.frame_skip_count < 5 := by
      simp only [List.length_cons] at h; omega
    simp only [run_frames, on_process, if_pos hlt, List.all_cons,
      Bool.and_eq_true, decide_eq_true_eq]
    refine ⟨trivial, ih _ ?_⟩
    simp only [List.length_cons] at h
    show st.frame_skip_count + 1 + rest.length ≤ 5
    omega

/-- C3 amended: after every format negotiation that is the *first* one
or *changes the geometry*, the frame-skip counter is reset to 0 and
the next 5 delivered frames are all skipped (not converted, not
written), regardless of their content; a renegotiation with identical
geometry does not reset the counter (see
`same_geometry_renegotiation_no_skip`). -/
theorem renegotiation_resets_skip (st : PState) (w h f : Nat)
    (hchange : st.format_set = false ∨ st.width ≠ w ∨ st.height ≠ h)
    (frames : List (Bool × Int × Bool)) (hlen : frames.length ≤ 5) :
    (on_format_changed st w h f).frame_skip_count = 0 ∧
    (run_frames (on_format_changed st w h f) frames).2.all
      (· = .skipped) = true := by
  have hreset : (on_format_changed st w h f).frame_skip_count = 0 := by
    simp only [on_format_changed]
    split
    · rfl
    · rename_i hcond
      exfalso
      rcases hchange with hc | hc | hc <;> simp [hc] at hcond
  refine ⟨hreset, run_frames_all_skipped frames _ ?_⟩
  omega

/-- Witness for `renegotiation_resets_skip` at a concrete input. -/
theorem renegotiation_resets_skip_witness :
    (on_format_changed pstate_init 1280 720 8).frame_skip_count = 0 ∧
    (run_frames (on_format_changed pstate_init 1280 720 8)
      [(true, 1, true), (false, -1, false), (true, 0, true)]).2.all
      (· = .skipped) = true :=
  renegotiation_resets_skip pstate_init 1280 720 8 (Or.inl rfl)
    [(true, 1, true), (false, -1, false), (true, 0, true)] (by decide)

/-! ## CLI surface and process exit code (`main`)

Models the argument-parsing loop of `main` and the exit code of the
process.  `main` has exactly two early `return`s (0 for `--help`/`-h`,
1 for an unknown option); every other path — including the
`goto cleanup` taken when `setup_v4l2_device` fails, the portal-setup
failure path, and graceful shutdown of either main loop — falls
through to the `cleanup:` label and ends in `return 0`. -/

/-- Result of the argument-parsing loop of `main`: an early `return`
with an exit code, or fall-through with the accumulated flags and the
selected device path (the last positional argument, if any). -/
inductive ArgScan where
  | exit (code : Nat)
  | proceed (colorBars debug : Bool) (device : Option String)
  deriving DecidableEq, Repr

/-- The `for (int i = 1; i < argc; i++)` loop of `main`.  An argument
whose first byte is not `'-'` (including the empty string, whose first
byte is the NUL terminator) is taken as the device path. -/
def arg_scan : List String → Bool → Bool → Option String → ArgScan
  | [], cb, dbg, dev => .proceed cb dbg dev
  | a :: rest, cb, dbg, dev =>
    if a = "--color-bars" ∨ a = "-c" then arg_scan rest true dbg dev
    else if a = "--debug" ∨ a = "-v" then arg_scan rest cb true dev
    else if a = "--help" ∨ a = "-h" then .exit 0
    else if a.data.head? ≠ some '-' then arg_scan rest cb dbg (some a)
    else .exit 1

/-- The exit code of `main` given the command-line arguments (after
`argv[0]`) and whether `setup_v4l2_device` succeeded.  All post-parse
paths reach the `cleanup:` label and return 0, whether the sink opened
or not. -/
def main_exit (args : List String) (sinkOpenOk : Bool) : Nat :=
  match arg_scan args false false none with
  | .exit c => c
  | .proceed _ _ _ =>
    if sinkOpenOk then 0  -- main loops run, graceful shutdown, cleanup
    else 0                -- "Failed to setup V4L2 device", goto cleanup

/-- C4 counterexample: with a failing sink-device open (and an
otherwise valid command line naming a device), the process exit code
is 0, not the non-zero code the claim requires for an unrecoverable
startup failure. -/
theorem sink_open_failure_exits_zero :
    main_exit ["/dev/video7"] false = 0 := by rfl

/-- C4 amended: the exit code is 0 on graceful shutdown or help and 1
on a command-line argument error, but an unrecoverable startup failure
(in particular a failure to open the sink device) also exits with code
0 through the `cleanup:` path; consequently the exit code is always
0 or 1. -/
theorem main_exit_codes (args rest : List String) (ok : Bool) :
    main_exit ("--help" :: rest) ok = 0 ∧
    main_exit ("--frobnicate" :: rest) ok = 1 ∧
    main_exit ["/dev/video7"] false = 0 ∧
    (main_exit args ok = 0 ∨ main_exit args ok = 1) := by
  refine ⟨rfl, rfl, rfl, ?_⟩
  have key : ∀ (l : List String) (cb dbg : Bool) (dev : Option String),
      arg_scan l cb dbg dev = .exit 0 ∨ arg_scan l cb dbg dev = .exit 1 ∨
      ∃ cb' dbg' dev', arg_scan l cb dbg dev = .proceed cb' dbg' dev' := by
    intro l
    induction l with
    | nil => intro cb dbg dev; exact Or.inr (Or.inr ⟨cb, dbg, dev, rfl⟩)
    | cons a rest ih =>
      intro cb dbg dev
      simp only [arg_scan]
      split
      · exact ih true dbg dev
      · split
        · exact ih cb true dev
        · split
          · exact Or.inl rfl
          · split
            · exact ih cb dbg (some a)
            · exact Or.inr (Or.inl rfl)
  unfold main_exit
  rcases key args false false none with hk | hk | ⟨cb, dbg, dev, hk⟩ <;>
    rw [hk] <;> simp

/-! ## Per-frame stride resolution (`on_stream_process`) -/

/-- `bytes_per_pixel` as computed throughout `main.c`:
`(spa_format == 15 || spa_format == 16) ? 3 : 4` (RGB/BGR are the
24-bit layouts). -/
def bytes_per_pixel (spa_format : Nat) : Nat :=
  if spa_format == 15 || spa_format == 16 then 3 else 4

/-- Stride resolution in `on_stream_process`: use `chunk->stride` when
positive (it is a C `int32_t`, hence `Int` here); else
`chunk->size / height` when both `height` and `chunk->size` are
positive; else `width * bytes_per_pixel`; finally clamp the result up
to `width * bytes_per_pixel`. -/
def resolve_stride (chunkStride : Int) (chunkSize : Nat)
    (width height bpp : Nat) : Nat :=
  let min_stride := width * bpp
  let actual_stride :=
    if 0 < chunkStride then chunkStride.toNat
    else if 0 < height ∧ 0 < chunkSize then chunkSize / height
    else min_stride
  if actual_stride < min_stride then min_stride else actual_stride

/-- The resolution order as worded by the spec: the cascade value,
clamped up to the theoretical minimum via `max`. -/
def stride_spec (chunkStride : Int) (chunkSize : Nat)
    (width height bpp : Nat) : Nat :=
  max (if 0 < chunkStride then chunkStride.toNat
       else if 0 < height ∧ 0 < chunkSize then chunkSize / height
       else width * bpp)
      (width * bpp)

/-- C5: for every delivered buffer — whatever its negotiated SPA
format `f` — the stride used for processing follows the claimed
resolution order (declared per-buffer stride if positive, else
declared size divided by height when both are positive, else
`width * bytes_per_pixel`) and is clamped up to at least
`width * bytes_per_pixel`, with 3 bytes per pixel for the 24-bit
layouts (SPA formats 15 and 16) and 4 for every other format. -/
theorem stride_resolution (chunkStride : Int) (chunkSize width height f : Nat) :
    resolve_stride chunkStride chunkSize width height (bytes_per_pixel f) =
      stride_spec chunkStride chunkSize width height (bytes_per_pixel f) ∧
    width * bytes_per_pixel f ≤
      resolve_stride chunkStride chunkSize width height (bytes_per_pixel f) ∧
    bytes_per_pixel 15 = 3 ∧ bytes_per_pixel 16 = 3 ∧
    (f ≠ 15 → f ≠ 16 → bytes_per_pixel f = 4) := by
  have heq : ∀ bpp, resolve_stride chunkStride chunkSize width height bpp =
      stride_spec chunkStride chunkSize width height bpp := by
    intro bpp
    simp only [resolve_stride, stride_spec]
    generalize (if 0 < chunkStride then chunkStride.toNat
      else if 0 < height ∧ 0 < chunkSize then chunkSize / height
      else width * bpp) = a
    split <;> omega
  have hbpp : f ≠ 15 → f ≠ 16 → bytes_per_pixel f = 4 := by
    intro h15 h16
    simp only [bytes_per_pixel]
    have h1 : (f == 15) = false := by simp [h15]
    have h2 : (f == 16) = false := by simp [h16]
    simp [h1, h2]
  refine ⟨heq _, ?_, rfl, rfl, hbpp⟩
  simp only [resolve_stride]
  generalize (if 0 < chunkStride then chunkStride.toNat
    else if 0 < height ∧ 0 < chunkSize then chunkSize / height
    else width * bytes_per_pixel f) = a
  split <;> omega

/-- Witness for `stride_resolution` at concrete inputs: a 1280×720
24-bit BGR frame (SPA format 16, 3 bytes per pixel) whose declared
stride is 0 and whose declared chunk size carries row padding, and the
4-byte case discharged at BGRx (SPA format 8). -/
theorem stride_resolution_witness :
    (resolve_stride 0 2822400 1280 720 (bytes_per_pixel 16) =
      stride_spec 0 2822400 1280 720 (bytes_per_pixel 16) ∧
    1280 * bytes_per_pixel 16 ≤
      resolve_stride 0 2822400 1280 720 (bytes_per_pixel 16) ∧
    bytes_per_pixel 15 = 3 ∧ bytes_per_pixel 16 = 3 ∧
    (16 ≠ 15 → 16 ≠ 16 → bytes_per_pixel 16 = 4)) ∧
    bytes_per_pixel 8 = 4 :=
  ⟨stride_resolution 0 2822400 1280 720 16,
   (stride_resolution 0 2822400 1280 720 8).2.2.2.2
     (by decide) (by decide)⟩

/-! ## Stride depadding (`create_packed_buffer`)

`create_packed_buffer` copies, for each row `y`, the first
`width * bytes_per_pixel` bytes of the source row starting at
`y * src_stride` into a tightly packed buffer. -/

/-- `create_packed_buffer` of `main.c`: row-by-row `memcpy` of
`width * bpp` bytes from offset `y * src_stride` into a packed buffer
with row size `width * bpp` (allocation assumed to succeed). -/
def create_packed_buffer (src : Nat → Nat) (width height src_stride bpp : Nat) :
    List Nat :=
  (List.range height).flatMap (fun y =>
    (List.range (width * bpp)).map (fun i => src (y * src_stride + i)))

/-! ## BGRx → YUYV conversion (`convert_bgrx_to_yuyv`)

The converter walks the destination through a moving pointer
(`dst_row++`), so it is modelled as the list of `(offset, value)`
writes in program order.  `dst_row` starts at `dst + y*width*2` and the
loop `for (x = 0; x < width; x += 2)` runs `(width+1)/2` times, pair
`p` covering `x = 2p`.  C's `>>` on a negative `int` is an arithmetic
shift on this target, i.e. floor division by 256 (`Int.fdiv`). -/

/-- Clamp an `int` to `[0, 255]`, as the
`(v < 0) ? 0 : ((v > 255) ? 255 : v)` expressions in the converter. -/
def clamp8 (v : Int) : Int :=
  if v < 0 then 0 else if 255 < v then 255 else v

/-- The per-pair YUV arithmetic of `convert_bgrx_to_yuyv`, given the
two pixels' B/G/R bytes: lumas per pixel, chroma from the averaged
B/G/R of the pair, all clamped to `[0,255]`; returns `(Y0, U, Y1, V)`
in output order. -/
def yuyv_pair (b0 g0 r0 b1 g1 r1 : Nat) : Nat × Nat × Nat × Nat :=
  let y0 : Int := Int.fdiv (77 * (r0 : Int) + 150 * (g0 : Int) + 29 * (b0 : Int)) 256
  let y1 : Int := Int.fdiv (77 * (r1 : Int) + 150 * (g1 : Int) + 29 * (b1 : Int)) 256
  let ravg : Nat := (r0 + r1) / 2
  let gavg : Nat := (g0 + g1) / 2
  let bavg : Nat := (b0 + b1) / 2
  let u : Int :=
    Int.fdiv (-38 * (ravg : Int) - 74 * (gavg : Int) + 112 * (bavg : Int)) 256 + 128
  let v : Int :=
    Int.fdiv (112 * (ravg : Int) - 94 * (gavg : Int) - 18 * (bavg : Int)) 256 + 128
  ((clamp8 y0).toNat, (clamp8 u).toNat, (clamp8 y1).toNat, (clamp8 v).toNat)

/-- The four writes of one pair iteration of `convert_bgrx_to_yuyv`:
pixel 0 is read at `src_row + 4x`, pixel 1 at `src_row + 4(x+1)` when
`x + 1 < width` and duplicated from pixel 0 otherwise; the four bytes
`[Y0, U, Y1, V]` go to consecutive offsets starting at
`y*width*2 + 4p` (the moving `dst_row` pointer). -/
def bgrx_pair_writes (src : Nat → Nat) (width stride y p : Nat) :
    List (Nat × Nat) :=
  let x := 2 * p
  let base := y * stride + 4 * x
  let b0 := src base
  let g0 := src (base + 1)
  let r0 := src (base + 2)
  let base1 := y * stride + 4 * (x + 1)
  let b1 := if x + 1 < width then src base1 else b0
  let g1 := if x + 1 < width then src (base1 + 1) else g0
  let r1 := if x + 1 < width then src (base1 + 2) else r0
  let q := yuyv_pair b0 g0 r0 b1 g1 r1
  let off := y * width * 2 + 4 * p
  [(off, q.1), (off + 1, q.2.1), (off + 2, q.2.2.1), (off + 3, q.2.2.2)]

/-- All writes of one row of `convert_bgrx_to_yuyv`. -/
def bgrx_row_writes (src : Nat → Nat) (width stride y : Nat) :
    List (Nat × Nat) :=
  (List.range ((width + 1) / 2)).flatMap (bgrx_pair_writes src width stride y)

/-- `convert_bgrx_to_yuyv` of `main.c`, as its sequence of destination
writes in program order. -/
def convert_bgrx_to_yuyv (src : Nat → Nat) (width height stride : Nat) :
    List (Nat × Nat) :=
  (List.range height).flatMap (bgrx_row_writes src width stride)

/-- All source offsets read by `convert_bgrx_to_yuyv`: for each pair,
the three B/G/R bytes of pixel `x`, and of pixel `x+1` only when
`x + 1 < width` (the padding byte `px[3]` is never read). -/
def bgrx_read_offsets (width height stride : Nat) : List Nat :=
  (List.range height).flatMap (fun y =>
    (List.range ((width + 1) / 2)).flatMap (fun p =>
      let x := 2 * p
      let base := y * stride + 4 * x
      let base1 := y * stride + 4 * (x + 1)
      [base, base + 1, base + 2] ++
        (if x + 1 < width then [base1, base1 + 1, base1 + 2] else [])))

/-- The per-pair BT.601 transform as the spec words it: per-pixel luma
`Y = (77R + 150G + 29B) >> 8`, chroma from the average R/G/B of the
pair, `U = ((-38·Ravg - 74·Gavg + 112·Bavg) >> 8) + 128` and
`V = ((112·Ravg - 94·Gavg - 18·Bavg) >> 8) + 128`, each clamped to
`[0,255]`; result `(Y0, U, Y1, V)`. -/
def bt601_pair_spec (r0 g0 b0 r1 g1 b1 : Nat) : Nat × Nat × Nat × Nat :=
  let yY : Nat → Nat → Nat → Int := fun r g b =>
    Int.fdiv (77 * (r : Int) + 150 * (g : Int) + 29 * (b : Int)) 256
  let ravg : Nat := (r0 + r1) / 2
  let gavg : Nat := (g0 + g1) / 2
  let bavg : Nat := (b0 + b1) / 2
  let u : Int :=
    Int.fdiv (-38 * (ravg : Int) - 74 * (gavg : Int) + 112 * (bavg : Int)) 256 + 128
  let v : Int :=
    Int.fdiv (112 * (ravg : Int) - 94 * (gavg : Int) - 18 * (bavg : Int)) 256 + 128
  ((clamp8 (yY r0 g0 b0)).toNat, (clamp8 u).toNat,
   (clamp8 (yY r1 g1 b1)).toNat, (clamp8 v).toNat)

/-- The converter's per-pair arithmetic coincides with the spec's
BT.601 formulas (arguments reordered from B,G,R to R,G,B). -/
theorem yuyv_pair_eq_spec (b0 g0 r0 b1 g1 r1 : Nat) :
    yuyv_pair b0 g0 r0 b1 g1 r1 = bt601_pair_spec r0 g0 b0 r1 g1 b1 := rfl

/-! ### List helper lemmas -/

/-- `flatMap` only depends on the images of the list's elements. -/
theorem flatMap_congr_mem {α β : Type} {l : List α} {f g : α → List β}
    (h : ∀ a ∈ l, f a = g a) : l.flatMap f = l.flatMap g := by
  induction l with
  | nil => rfl
  | cons a t ih =>
    rw [List.flatMap_cons, List.flatMap_cons, h a (List.mem_cons_self a t),
      ih (fun b hb => h b (List.mem_cons_of_mem a hb))]

/-- Length of `flatMap` over `range` when every image has length `L`. -/
theorem length_flatMap_const {β : Type} (f : Nat → List β) (L : Nat)
    (hf : ∀ k, (f k).length = L) :
    ∀ n, ((List.range n).flatMap f).length = n * L := by
  intro n
  induction n with
  | zero => simp
  | succ n ih =>
    rw [List.range_succ, List.flatMap_append, List.length_append, ih]
    simp [hf, Nat.succ_mul]

/-- Indexing into `flatMap` over `range` when every image has length
`L`: index `y * L + i` lands at position `i` of image `y`. -/
theorem getD_flatMap_range {β : Type} (f : Nat → List β) (L : Nat)
    (hf : ∀ k, (f k).length = L) (d : β) :
    ∀ (n y i : Nat), y < n → i < L →
      ((List.range n).flatMap f).getD (y * L + i) d = (f y).getD i d := by
  intro n
  induction n with
  | zero => intro y i hy _; omega
  | succ n ih =>
    intro y i hy hi
    rw [List.range_succ, List.flatMap_append]
    simp only [List.flatMap_cons, List.flatMap_nil, List.append_nil]
    by_cases h : y < n
    · rw [List.getD_eq_getElem?_getD, List.getElem?_append_left,
        ← List.getD_eq_getElem?_getD]
      · exact ih y i h hi
      · rw [length_flatMap_const f L hf n]
        calc y * L + i < (y + 1) * L := by rw [Nat.succ_mul]; omega
          _ ≤ n * L := Nat.mul_le_mul_right L (by omega)
    · have hy' : y = n := by omega
      subst hy'
      have hlen : ((List.range y).flatMap f).length = y * L :=
        length_flatMap_const f L hf y
      rw [List.getD_eq_getElem?_getD,
        List.getElem?_append_right (by rw [hlen]; omega), hlen,
        Nat.add_sub_cancel_left, ← List.getD_eq_getElem?_getD]

/-- C9: the packed buffer produced from a strided source before YUV
conversion has exactly `width * height * bpp` bytes, and for every row
`y` and byte index `i < width * bpp`, its byte at
`y * (width * bpp) + i` equals the source byte at `y * stride + i`
(depadding by direct indexing). -/
theorem packed_buffer_depads (src : Nat → Nat)
    (width height stride bpp y i : Nat)
    (hy : y < height) (hi : i < width * bpp) :
    (create_packed_buffer src width height stride bpp).length =
      width * height * bpp ∧
    (create_packed_buffer src width height stride bpp).getD
      (y * (width * bpp) + i) 0 = src (y * stride + i) := by
  have hrow : ∀ k, ((List.range (width * bpp)).map
      (fun j => src (k * stride + j))).length = width * bpp := by
    intro k; simp
  constructor
  · rw [create_packed_buffer, length_flatMap_const _ _ hrow]
    ring
  · rw [create_packed_buffer,
      getD_flatMap_range _ _ hrow 0 height y i hy hi,
      List.getD_eq_getElem?_getD, List.getElem?_map, List.getElem?_range hi]
    rfl

/-- Witness for `packed_buffer_depads` at a concrete 2×2, 3-bytes-per-
pixel frame with stride 7. -/
theorem packed_buffer_depads_witness :
    (create_packed_buffer (fun o => o) 2 2 7 3).length = 2 * 2 * 3 ∧
    (create_packed_buffer (fun o => o) 2 2 7 3).getD (1 * (2 * 3) + 4) 0 =
      1 * 7 + 4 :=
  packed_buffer_depads (fun o => o) 2 2 7 3 1 4 (by decide) (by decide)

/-- C7: for every full horizontal pixel pair (both pixels inside the
row), the converter's write list contains, at consecutive offsets
starting at `y*width*2 + 4p`, exactly the four bytes `[Y0, U, Y1, V]`
given by the spec's BT.601 formulas applied to the pair's two
B,G,R pixels (read at `y*stride + 8p` and `y*stride + 8p + 4`). -/
theorem bgrx_full_pair_emits_bt601 (src : Nat → Nat)
    (width height stride y p : Nat) (hy : y < height)
    (hp : 2 * p + 1 < width) :
    (y * width * 2 + 4 * p,
      (bt601_pair_spec (src (y * stride + 8 * p + 2))
        (src (y * stride + 8 * p + 1)) (src (y * stride + 8 * p))
        (src (y * stride + 8 * p + 6)) (src (y * stride + 8 * p + 5))
        (src (y * stride + 8 * p + 4))).1)
      ∈ convert_bgrx_to_yuyv src width height stride ∧
    (y * width * 2 + 4 * p + 1,
      (bt601_pair_spec (src (y * stride + 8 * p + 2))
        (src (y * stride + 8 * p + 1)) (src (y * stride + 8 * p))
        (src (y * stride + 8 * p + 6)) (src (y * stride + 8 * p + 5))
        (src (y * stride + 8 * p + 4))).2.1)
      ∈ convert_bgrx_to_yuyv src width height stride ∧
    (y * width * 2 + 4 * p + 2,
      (bt601_pair_spec (src (y * stride + 8 * p + 2))
        (src (y * stride + 8 * p + 1)) (src (y * stride + 8 * p))
        (src (y * stride + 8 * p + 6)) (src (y * stride + 8 * p + 5))
        (src (y * stride + 8 * p + 4))).2.2.1)
      ∈ convert_bgrx_to_yuyv src width height stride ∧
    (y * width * 2 + 4 * p + 3,
      (bt601_pair_spec (src (y * stride + 8 * p + 2))
        (src (y * stride + 8 * p + 1)) (src (y * stride + 8 * p))
        (src (y * stride + 8 * p + 6)) (src (y * stride + 8 * p + 5))
        (src (y * stride + 8 * p + 4))).2.2.2)
      ∈ convert_bgrx_to_yuyv src width height stride := by
  have e1 : y * stride + 4 * (2 * p) = y * stride + 8 * p := by ring
  have e2 : y * stride + 4 * (2 * p + 1) = y * stride + 8 * p + 4 := by ring
  have hpair : bgrx_pair_writes src width stride y p =
      [(y * width * 2 + 4 * p,
        (bt601_pair_spec (src (y * stride + 8 * p + 2))
          (src (y * stride + 8 * p + 1)) (src (y * stride + 8 * p))
          (src (y * stride + 8 * p + 6)) (src (y * stride + 8 * p + 5))
          (src (y * stride + 8 * p + 4))).1),
       (y * width * 2 + 4 * p + 1,
        (bt601_pair_spec (src (y * stride + 8 * p + 2))
          (src (y * stride + 8 * p + 1)) (src (y * stride + 8 * p))
          (src (y * stride + 8 * p + 6)) (src (y * stride + 8 * p + 5))
          (src (y * stride + 8 * p + 4))).2.1),
       (y * width * 2 + 4 * p + 2,
        (bt601_pair_spec (src (y * stride + 8 * p + 2))
          (src (y * stride + 8 * p + 1)) (src (y * stride + 8 * p))
          (src (y * stride + 8 * p + 6)) (src (y * stride + 8 * p + 5))
          (src (y * stride + 8 * p + 4))).2.2.1),
       (y * width * 2 + 4 * p + 3,
        (bt601_pair_spec (src (y * stride + 8 * p + 2))
          (src (y * stride + 8 * p + 1)) (src (y * stride + 8 * p))
          (src (y * stride + 8 * p + 6)) (src (y * stride + 8 * p + 5))
          (src (y * stride + 8 * p + 4))).2.2.2)] := by
    simp only [bgrx_pair_writes, hp, if_true]
    rw [e1, e2, yuyv_pair_eq_spec]
  have hmem : ∀ wv ∈ bgrx_pair_writes src width stride y p,
      wv ∈ convert_bgrx_to_yuyv src width height stride := by
    intro wv hwv
    exact List.mem_flatMap_of_mem (List.mem_range.mpr hy)
      (List.mem_flatMap_of_mem (List.mem_range.mpr (by omega)) hwv)
  refine ⟨?_, ?_, ?_, ?_⟩ <;> apply hmem <;> rw [hpair] <;> simp

/-- Witness for `bgrx_full_pair_emits_bt601` on a concrete 2×1 frame. -/
theorem bgrx_full_pair_emits_bt601_witness :
    (0 * 2 * 2 + 4 * 0, (bt601_pair_spec 2 1 0 6 5 4).1)
      ∈ convert_bgrx_to_yuyv (fun o => o) 2 1 8 ∧
    (0 * 2 * 2 + 4 * 0 + 1, (bt601_pair_spec 2 1 0 6 5 4).2.1)
      ∈ convert_bgrx_to_yuyv (fun o => o) 2 1 8 ∧
    (0 * 2 * 2 + 4 * 0 + 2, (bt601_pair_spec 2 1 0 6 5 4).2.2.1)
      ∈ convert_bgrx_to_yuyv (fun o => o) 2 1 8 ∧
    (0 * 2 * 2 + 4 * 0 + 3, (bt601_pair_spec 2 1 0 6 5 4).2.2.2)
      ∈ convert_bgrx_to_yuyv (fun o => o) 2 1 8 :=
  bgrx_full_pair_emits_bt601 (fun o => o) 2 1 8 0 0 (by decide) (by decide)

/-- Every source offset the converter reads lies inside the frame
(`height * stride` bytes) as soon as the stride is at least the packed
row size `4 * width` — which the pipeline's stride clamp guarantees. -/
theorem bgrx_reads_in_bounds (width height stride : Nat)
    (hs : 4 * width ≤ stride) :
    ∀ o ∈ bgrx_read_offsets width height stride, o < height * stride := by
  have hb : ∀ y x c : Nat, y < height → x < width → c ≤ 2 →
      y * stride + 4 * x + c < height * stride := by
    intro y x c hy hx hc
    have h1 : 4 * x + c < stride := by omega
    calc y * stride + 4 * x + c < y * stride + stride := by omega
      _ = (y + 1) * stride := by ring
      _ ≤ height * stride := Nat.mul_le_mul_right stride (by omega)
  intro o ho
  simp only [bgrx_read_offsets, List.mem_flatMap, List.mem_range] at ho
  obtain ⟨y, hy, p, hp, hmem⟩ := ho
  have h2p : 2 * p < width := by omega
  by_cases h1 : 2 * p + 1 < width
  · simp only [h1, if_true, List.mem_append, List.mem_cons,
      List.mem_singleton, List.not_mem_nil, or_false] at hmem
    rcases hmem with (rfl | rfl | rfl) | (rfl | rfl | rfl)
    · exact hb y (2 * p) 0 hy h2p (by omega)
    · exact hb y (2 * p) 1 hy h2p (by omega)
    · exact hb y (2 * p) 2 hy h2p (by omega)
    · exact hb y (2 * p + 1) 0 hy h1 (by omega)
    · exact hb y (2 * p + 1) 1 hy h1 (by omega)
    · exact hb y (2 * p + 1) 2 hy h1 (by omega)
  · simp only [h1, if_false, List.append_nil, List.mem_cons,
      List.mem_singleton, List.not_mem_nil, or_false] at hmem
    rcases hmem with rfl | rfl | rfl
    · exact hb y (2 * p) 0 hy h2p (by omega)
    · exact hb y (2 * p) 1 hy h2p (by omega)
    · exact hb y (2 * p) 2 hy h2p (by omega)

/-- The converter's output is fully determined by the source bytes at
the offsets it reads: two sources that agree on every read offset
convert identically. -/
theorem convert_bgrx_depends_only_on_reads (src src' : Nat → Nat)
    (width height stride : Nat)
    (hagree : ∀ o ∈ bgrx_read_offsets width height stride, src o = src' o) :
    convert_bgrx_to_yuyv src width height stride =
      convert_bgrx_to_yuyv src' width height stride := by
  unfold convert_bgrx_to_yuyv
  apply flatMap_congr_mem
  intro y hymem
  unfold bgrx_row_writes
  apply flatMap_congr_mem
  intro p hpmem
  have hy := List.mem_range.mp hymem
  have hp := List.mem_range.mp hpmem
  have hin1 : ∀ c : Nat, c ≤ 2 →
      (y * stride + 4 * (2 * p) + c) ∈ bgrx_read_offsets width height stride := by
    intro c hc
    simp only [bgrx_read_offsets, List.mem_flatMap, List.mem_range]
    refine ⟨y, hy, p, hp, ?_⟩
    simp only [List.mem_append, List.mem_cons, List.mem_singleton]
    interval_cases c <;> simp
  have ha0 := hagree _ (by simpa using hin1 0 (by omega))
  have ha1 := hagree _ (hin1 1 (by omega))
  have ha2 := hagree _ (hin1 2 (by omega))
  by_cases h1 : 2 * p + 1 < width
  · have hin2 : ∀ c : Nat, c ≤ 2 →
        (y * stride + 4 * (2 * p + 1) + c) ∈
          bgrx_read_offsets width height stride := by
      intro c hc
      simp only [bgrx_read_offsets, List.mem_flatMap, List.mem_range]
      refine ⟨y, hy, p, hp, ?_⟩
      simp only [h1, if_true, List.mem_append, List.mem_cons,
        List.mem_singleton]
      interval_cases c <;> simp
    have hb0 := hagree _ (by simpa using hin2 0 (by omega))
    have hb1 := hagree _ (hin2 1 (by omega))
    have hb2 := hagree _ (hin2 2 (by omega))
    simp only [bgrx_pair_writes]
    rw [ha0, ha1, ha2, hb0, hb1, hb2]
  · simp only [bgrx_pair_writes, h1, if_false]
    rw [ha0, ha1, ha2]

/-- C8: for odd width, the last (unpaired) column of each row is
processed by duplicating its own B,G,R sample as its own pair-partner:
the last output pair's chroma bytes U and V equal the spec chroma of
the duplicated sample (so the pair average is the sample itself); and
no read of the converter falls outside the source frame's
`height * stride` bytes (given the clamped stride
`4 * width ≤ stride`) — in particular the conversion result only
depends on in-frame bytes. -/
theorem bgrx_odd_width_duplicates_last_column (src : Nat → Nat)
    (width height stride y : Nat) (hodd : width % 2 = 1) (hy : y < height)
    (hs : 4 * width ≤ stride) :
    ((y * width * 2 + 4 * ((width - 1) / 2) + 1,
       (bt601_pair_spec (src (y * stride + 4 * (width - 1) + 2))
         (src (y * stride + 4 * (width - 1) + 1))
         (src (y * stride + 4 * (width - 1)))
         (src (y * stride + 4 * (width - 1) + 2))
         (src (y * stride + 4 * (width - 1) + 1))
         (src (y * stride + 4 * (width - 1)))).2.1)
       ∈ convert_bgrx_to_yuyv src width height stride ∧
     (y * width * 2 + 4 * ((width - 1) / 2) + 3,
       (bt601_pair_spec (src (y * stride + 4 * (width - 1) + 2))
         (src (y * stride + 4 * (width - 1) + 1))
         (src (y * stride + 4 * (width - 1)))
         (src (y * stride + 4 * (width - 1) + 2))
         (src (y * stride + 4 * (width - 1) + 1))
         (src (y * stride + 4 * (width - 1)))).2.2.2)
       ∈ convert_bgrx_to_yuyv src width height stride) ∧
    (∀ o ∈ bgrx_read_offsets width height stride, o < height * stride) ∧
    (∀ src' : Nat → Nat,
      (∀ o ∈ bgrx_read_offsets width height stride, src o = src' o) →
      convert_bgrx_to_yuyv src width height stride =
        convert_bgrx_to_yuyv src' width height stride) := by
  refine ⟨?_, bgrx_reads_in_bounds width height stride hs,
    fun src' h => convert_bgrx_depends_only_on_reads src src'
      width height stride h⟩
  have hx : 2 * ((width - 1) / 2) = width - 1 := by omega
  have hx1 : ¬ (2 * ((width - 1) / 2) + 1 < width) := by omega
  have hpair : bgrx_pair_writes src width stride y ((width - 1) / 2) =
      [(y * width * 2 + 4 * ((width - 1) / 2),
        (bt601_pair_spec (src (y * stride + 4 * (width - 1) + 2))
          (src (y * stride + 4 * (width - 1) + 1))
          (src (y * stride + 4 * (width - 1)))
          (src (y * stride + 4 * (width - 1) + 2))
          (src (y * stride + 4 * (width - 1) + 1))
          (src (y * stride + 4 * (width - 1)))).1),
       (y * width * 2 + 4 * ((width - 1) / 2) + 1,
        (bt601_pair_spec (src (y * stride + 4 * (width - 1) + 2))
          (src (y * stride + 4 * (width - 1) + 1))
          (src (y * stride + 4 * (width - 1)))
          (src (y * stride + 4 * (width - 1) + 2))
          (src (y * stride + 4 * (width - 1) + 1))
          (src (y * stride + 4 * (width - 1)))).2.1),
       (y * width * 2 + 4 * ((width - 1) / 2) + 2,
        (bt601_pair_spec (src (y * stride + 4 * (width - 1) + 2))
          (src (y * stride + 4 * (width - 1) + 1))
          (src (y * stride + 4 * (width - 1)))
          (src (y * stride + 4 * (width - 1) + 2))
          (src (y * stride + 4 * (width - 1) + 1))
          (src (y * stride + 4 * (width - 1)))).2.2.1),
       (y * width * 2 + 4 * ((width - 1) / 2) + 3,
        (bt601_pair_spec (src (y * stride + 4 * (width - 1) + 2))
          (src (y * stride + 4 * (width - 1) + 1))
          (src (y * stride + 4 * (width - 1)))
          (src (y * stride + 4 * (width - 1) + 2))
          (src (y * stride + 4 * (width - 1) + 1))
          (src (y * stride + 4 * (width - 1)))).2.2.2)] := by
    simp only [bgrx_pair_writes, hx1, if_false]
    rw [hx, yuyv_pair_eq_spec]
  have hmem : ∀ wv ∈ bgrx_pair_writes src width stride y ((width - 1) / 2),
      wv ∈ convert_bgrx_to_yuyv src width height stride := by
    intro wv hwv
    exact List.mem_flatMap_of_mem (List.mem_range.mpr hy)
      (List.mem_flatMap_of_mem (List.mem_range.mpr (by omega)) hwv)
  constructor <;> apply hmem <;> rw [hpair] <;> simp

/-- Witness for `bgrx_odd_width_duplicates_last_column` on a concrete
3×1 frame with stride 12. -/
theorem bgrx_odd_width_duplicates_last_column_witness :
    ((0 * 3 * 2 + 4 * ((3 - 1) / 2) + 1, (bt601_pair_spec 10 9 8 10 9 8).2.1)
       ∈ convert_bgrx_to_yuyv (fun o => o) 3 1 12 ∧
     (0 * 3 * 2 + 4 * ((3 - 1) / 2) + 3, (bt601_pair_spec 10 9 8 10 9 8).2.2.2)
       ∈ convert_bgrx_to_yuyv (fun o => o) 3 1 12) ∧
    (∀ o ∈ bgrx_read_offsets 3 1 12, o < 1 * 12) ∧
    (∀ src' : Nat → Nat,
      (∀ o ∈ bgrx_read_offsets 3 1 12, (fun o => o) o = src' o) →
      convert_bgrx_to_yuyv (fun o => o) 3 1 12 =
        convert_bgrx_to_yuyv src' 3 1 12) :=
  bgrx_odd_width_duplicates_last_column (fun o => o) 3 1 12 0
    (by decide) (by decide) (by decide)

/-- C10: for odd width `W`, each row's pair loop runs `(W+1)/2` times
and emits `4 * ((W+1)/2) = 2*(W+1)` bytes starting at offset `y*W*2`,
which exceeds the `2*W` bytes the row owns in a destination buffer of
`W * height * 2` bytes; in particular the converter writes at an
offset `≥ W * height * 2` — past the end of the conversion buffer
(sized `width * height * 2` in `on_stream_param_changed`). -/
theorem bgrx_odd_width_row_overflow (src : Nat → Nat)
    (width height stride y : Nat) (hodd : width % 2 = 1) (hy : y < height) :
    (bgrx_row_writes src width stride y).length = 2 * (width + 1) ∧
    (∀ wv ∈ bgrx_row_writes src width stride y,
      y * width * 2 ≤ wv.1 ∧ wv.1 < y * width * 2 + 2 * (width + 1)) ∧
    (∃ wv ∈ convert_bgrx_to_yuyv src width height stride,
      width * height * 2 ≤ wv.1) := by
  have hp4 : ∀ p, (bgrx_pair_writes src width stride y p).length = 4 :=
    fun _ => rfl
  refine ⟨?_, ?_, ?_⟩
  · have hlen := length_flatMap_const (bgrx_pair_writes src width stride y)
      4 hp4 ((width + 1) / 2)
    rw [bgrx_row_writes, hlen]
    omega
  · intro wv hwv
    simp only [bgrx_row_writes, List.mem_flatMap, List.mem_range] at hwv
    obtain ⟨p, hp, hmem⟩ := hwv
    simp only [bgrx_pair_writes, List.mem_cons, List.mem_singleton,
      List.not_mem_nil, or_false] at hmem
    rcases hmem with rfl | rfl | rfl | rfl <;> simp only [] <;> omega
  · have hpair4 : ((height - 1) * width * 2 + 4 * ((width - 1) / 2) + 3,
        (bgrx_pair_writes src width stride (height - 1)
          ((width - 1) / 2)).getD 3 (0, 0) |>.2) ∈
        bgrx_pair_writes src width stride (height - 1) ((width - 1) / 2) := by
      simp only [bgrx_pair_writes]
      exact List.mem_cons_of_mem _ (List.mem_cons_of_mem _
        (List.mem_cons_of_mem _ (List.mem_cons_self _ _)))
    refine ⟨_, List.mem_flatMap_of_mem (List.mem_range.mpr (by omega))
      (List.mem_flatMap_of_mem (List.mem_range.mpr (by omega)) hpair4), ?_⟩
    show width * height * 2 ≤
      (height - 1) * width * 2 + 4 * ((width - 1) / 2) + 3
    obtain ⟨h', rfl⟩ : ∃ h', height = h' + 1 := ⟨height - 1, by omega⟩
    have hsub : h' + 1 - 1 = h' := rfl
    rw [hsub]
    calc width * (h' + 1) * 2 = h' * width * 2 + 2 * width := by ring
      _ ≤ h' * width * 2 + (4 * ((width - 1) / 2) + 3) := by omega
      _ = h' * width * 2 + 4 * ((width - 1) / 2) + 3 := by omega

/-- Witness for `bgrx_odd_width_row_overflow` on a concrete 3×2 frame
with stride 12. -/
theorem bgrx_odd_width_row_overflow_witness :
    (bgrx_row_writes (fun o => o) 3 12 1).length = 2 * (3 + 1) ∧
    (∀ wv ∈ bgrx_row_writes (fun o => o) 3 12 1,
      1 * 3 * 2 ≤ wv.1 ∧ wv.1 < 1 * 3 * 2 + 2 * (3 + 1)) ∧
    (∃ wv ∈ convert_bgrx_to_yuyv (fun o => o) 3 2 12,
      3 * 2 * 2 ≤ wv.1) :=
  bgrx_odd_width_row_overflow (fun o => o) 3 2 12 1 (by decide) (by decide)

/-! ## Frame validity filter (`validate_frame_data`)

The C loops

    for (y = 0; y < height && total < 1000; y += y_step)
      for (x = 0; x < width && total < 1000; x += x_step) ...

visit the row-major grid of points `(k*y_step, j*x_step)` below
`height`/`width` and stop exactly when the 1000th sample has been
taken, so the visited samples are the length-1000 prefix of that grid.
The final comparison `(double)non_black / total > 0.01` is modelled
over `ℚ`: both quotients have denominator ≤ 1000 and numerator
≤ 1000, so the nearest rational distinct from 1/100 differs from it by
at least 1/100000 — far above the ≈2⁻⁵⁰ relative error of a correctly
rounded double quotient — and the exact-equality case `nb/total =
1/100` rounds to the very same double as the literal `0.01`; hence the
C comparison agrees with the rational one on every reachable input. -/

/-- Row step of the sampling grid: `height > 100 ? height / 100 : 1`. -/
def vf_y_step (height : Nat) : Nat := if 100 < height then height / 100 else 1

/-- Column step of the sampling grid: `width > 10 ? width / 10 : 1`. -/
def vf_x_step (width : Nat) : Nat := if 10 < width then width / 10 else 1

/-- The full row-major sampling grid (before the 1000-sample cap):
all `(y, x)` with `y < height`, `x < width` on the step grid. -/
def vf_grid (width height : Nat) : List (Nat × Nat) :=
  ((List.range height).filter (fun y => y % vf_y_step height == 0)).flatMap
    (fun y =>
      ((List.range width).filter (fun x => x % vf_x_step width == 0)).map
        (fun x => (y, x)))

/-- The pixels actually sampled: the first 1000 grid points. -/
def vf_samples (width height : Nat) : List (Nat × Nat) :=
  (vf_grid width height).take 1000

/-- A sampled pixel counts as non-black iff any of its first three
bytes is non-zero (`pixel[0] != 0 || pixel[1] != 0 || pixel[2] != 0`,
at address `y * stride + x * bytes_per_pixel`). -/
def pixel_non_black (dat : Nat → Nat) (stride bpp : Nat)
    (s : Nat × Nat) : Bool :=
  dat (s.1 * stride + s.2 * bpp) != 0 ||
  dat (s.1 * stride + s.2 * bpp + 1) != 0 ||
  dat (s.1 * stride + s.2 * bpp + 2) != 0

/-- `validate_frame_data` of `main.c`: the frame is valid iff the
non-black fraction of the sampled pixels strictly exceeds 1%. -/
def validate_frame_data (dat : Nat → Nat)
    (width height spa_format stride : Nat) : Bool :=
  let bpp := bytes_per_pixel spa_format
  let samples := vf_samples width height
  let non_black := samples.countP (pixel_non_black dat stride bpp)
  decide (((non_black : ℚ) / (samples.length : ℚ)) > 1 / 100)

/-- A list's elements are partitioned by any Boolean predicate. -/
theorem countP_not_add {α : Type} (p : α → Bool) (l : List α) :
    l.countP p + l.countP (fun a => ! p a) = l.length := by
  induction l with
  | nil => rfl
  | cons a t ih =>
    rw [List.countP_cons, List.countP_cons, List.length_cons]
    cases h : p a <;> simp [h] <;> omega

/-- C6: the validity filter samples at most 1000 pixels (and at least
one, for a non-degenerate frame), and a frame in which at least 99% of
the sampled pixels are exactly zero in their first three bytes is
rejected — the non-black fraction cannot strictly exceed 1%. -/
theorem mostly_black_frame_rejected (dat : Nat → Nat)
    (width height spa_format stride : Nat) (hw : 0 < width) (hh : 0 < height)
    (hblack : 99 * (vf_samples width height).length ≤
      100 * (vf_samples width height).countP
        (fun s => ! pixel_non_black dat stride (bytes_per_pixel spa_format) s)) :
    (vf_samples width height).length ≤ 1000 ∧
    0 < (vf_samples width height).length ∧
    validate_frame_data dat width height spa_format stride = false := by
  have hpart := countP_not_add
    (pixel_non_black dat stride (bytes_per_pixel spa_format))
    (vf_samples width height)
  have hle : (vf_samples width height).length ≤ 1000 := by
    rw [vf_samples, List.length_take]; omega
  have hpos : 0 < (vf_samples width height).length := by
    have h0 : ((0, 0) : Nat × Nat) ∈ vf_grid width height := by
      simp only [vf_grid, List.mem_flatMap]
      refine ⟨0, ?_, ?_⟩
      · simp [List.mem_filter, List.mem_range, hh]
      · simp only [List.mem_map]
        refine ⟨0, ?_, rfl⟩
        simp [List.mem_filter, List.mem_range, hw]
    have hgpos : 0 < (vf_grid width height).length :=
      List.length_pos_iff_exists_mem.mpr ⟨_, h0⟩
    rw [vf_samples, List.length_take]
    omega
  refine ⟨hle, hpos, ?_⟩
  have hnb : 100 * (vf_samples width height).countP
      (pixel_non_black dat stride (bytes_per_pixel spa_format)) ≤
      (vf_samples width height).length := by omega
  simp only [validate_frame_data, decide_eq_false_iff_not, not_lt]
  have hlen : (0 : ℚ) < ((vf_samples width height).length : ℚ) := by
    exact_mod_cast hpos
  rw [div_le_div_iff₀ hlen (by norm_num)]
  have hcast : (100 : ℚ) * ((vf_samples width height).countP
      (pixel_non_black dat stride (bytes_per_pixel spa_format)) : ℚ) ≤
      ((vf_samples width height).length : ℚ) := by exact_mod_cast hnb
  linarith

/-- Witness for `mostly_black_frame_rejected` on a concrete all-zero
2×2 BGRx frame. -/
theorem mostly_black_frame_rejected_witness :
    (vf_samples 2 2).length ≤ 1000 ∧
    0 < (vf_samples 2 2).length ∧
    validate_frame_data (fun _ => 0) 2 2 8 8 = false :=
  mostly_black_frame_rejected (fun _ => 0) 2 2 8 8
    (by decide) (by decide) (by decide)

end GnomeV4l2
